import Mathlib

/-!
# Job control of `msh` (src/msh.c)

A shallow embedding of the job registry, the SIGCHLD reaper, the `jobs`/`fg`/`bg`
builtins and `execute_pipeline` of `src/msh.c`, followed by theorems about them.

Conventions of the embedding

* C strings are `List Char` holding the bytes before the terminating NUL.
  The command line handed to `execute_pipeline` is edited in place by the C code
  (`line[len-1] = 0`, `strtok`), so it is modelled as a buffer `List Char` that may
  contain NUL characters; `cstr_at buf p` reads the C string that starts at offset `p`.
* `jobs[0 .. job_count-1]` is a `List Job`; `job_count` is its length.
* `int` / `pid_t` values are `Int` (no arithmetic on them can overflow here:
  indices are below `MAX_JOBS`, pids are only compared and printed).
* Everything the operating system decides (results of `fork`, `pipe`, `waitpid`,
  `chdir`, ...) and the indeterminate initial contents of uninitialised locals
  (`pids[]`, `status`) are fields of the parameter `OS`.
* Every externally visible action is appended to `Shell.trace`.
* Signal handlers run atomically in the model; interleavings of `handle_sigchld`
  with the main flow are outside the embedding.
-/

namespace Msh

/-! ## Constants -/

def MAX_CMD_LEN : Nat := 1024
def MAX_ARGS : Nat := 64
def MAX_JOBS : Nat := 20

/-- Signal number of SIGCONT on Linux. -/
def SIGCONT : Nat := 18

/-- The NUL character that terminates C strings. -/
def NUL : Char := Char.ofNat 0

/-! ## Data model -/

/-- One element of `Job jobs[MAX_JOBS]`: `status` is 0 for Running, 1 for Stopped.
`command` is the C string held in the `char command[MAX_CMD_LEN]` field. -/
structure Job where
  pid : Int
  command : List Char
  status : Int
deriving DecidableEq, Repr

/-- Externally visible actions of the shell process, in program order. -/
inductive Event where
  | stdout (text : List Char)
  | stderr (text : List Char)
  | perror (tag : List Char)
  | pipe (i : Nat)
  | fork (ret : Int)
  | dup2 (pipefd : Nat) (fd : Nat)
  | close (pipefd : Nat)
  | waitpid (pid : Int)
  | kill (pid : Int) (sig : Nat)
  | setenv (name : List Char) (value : List Char)
  | chdir (path : List Char)
  | execvp (args : List (List Char))
  | exit (code : Int)
deriving DecidableEq, Repr

/-- The global state of the shell process: the job table, `last_exit_status`,
`foreground_pid`, the environment (only `PS1` is ever read) and the trace. -/
structure Shell where
  jobs : List Job
  last_exit_status : Int
  foreground_pid : Int
  env : List (List Char × List Char)
  trace : List Event
deriving DecidableEq

/-- Answers of the operating system and indeterminate memory. -/
structure OS where
  /-- whether the i-th `pipe()` call of a pipeline succeeds -/
  pipe : Nat → Bool
  /-- return value of the k-th `fork()` of a pipeline: 0 in the child, negative on failure -/
  fork : Nat → Int
  /-- the k-th blocking `waitpid(pid, &status, WUNTRACED)` of a command:
  `some st` stores `st` in `status`, `none` is a failed call that leaves `status` alone -/
  waitpid : Nat → Int → Option Int
  /-- whether `chdir(path)` succeeds -/
  chdir : List Char → Bool
  /-- result of `getcwd` -/
  getcwd : Option (List Char)
  /-- whether `execvp` replaces the process image (it returns only on failure) -/
  execvp : List (List Char) → Bool
  /-- indeterminate contents of the local array `pids` (and of the memory next to it) -/
  pids : Int → Int
  /-- indeterminate initial value of the local `status` -/
  status : Int

/-- The state at program start: `job_count = 0`, `last_exit_status = 0`, `foreground_pid = -1`. -/
def Shell.init : Shell := ⟨[], 0, -1, [], []⟩

def emit (s : Shell) (e : Event) : Shell := { s with trace := s.trace ++ [e] }

def print (s : Shell) (text : List Char) : Shell := emit s (.stdout text)

/-- The conversion `%d` of printf. -/
def fmt_d (n : Int) : List Char := (toString n).toList

/-! ## Wait status macros of `<sys/wait.h>` (Linux encoding) -/

/-- The macro `WEXITSTATUS(status)`: `(status & 0xff00) >> 8`. -/
def WEXITSTATUS (status : Int) : Int := (status % 65536) / 256

/-- The macro `WIFEXITED(status)`: `(status & 0x7f) == 0`. -/
def WIFEXITED (status : Int) : Bool := status % 128 == 0

/-- The macro `WIFSIGNALED(status)`: `((signed char) ((status & 0x7f) + 1) >> 1) > 0`,
true exactly when the low seven bits are between 1 and 126. -/
def WIFSIGNALED (status : Int) : Bool := 1 ≤ status % 128 && status % 128 ≤ 126

/-- The macro `WIFSTOPPED(status)`: `(status & 0xff) == 0x7f`. -/
def WIFSTOPPED (status : Int) : Bool := status % 256 == 127

/-! ## Job table helpers (msh.c lines 36-68) -/

/-- The call `strncpy(dst, src, n)` followed by reading `dst` back as a string of at most
`n` bytes. -/
def strncpy (src : List Char) (n : Nat) : List Char := src.take n

def add_job (pid : Int) (cmd : List Char) (status : Int) (s : Shell) : Shell :=
  if s.jobs.length < MAX_JOBS then
    let s1 := { s with jobs := s.jobs ++ [⟨pid, strncpy cmd MAX_CMD_LEN, status⟩] }
    if status = 0 then
      print s1 ("[".toList ++ fmt_d s1.jobs.length ++ "] ".toList ++ fmt_d pid ++ "\n".toList)
    else s1
  else
    emit s (.stderr "Job list full!\n".toList)

/-- The loop of `remove_job` on the live entries: the first entry whose pid matches is
dropped and the later ones move one place to the left. -/
def remove_entry : List Job → Int → List Job
  | [], _ => []
  | j :: js, pid => if j.pid = pid then js else j :: remove_entry js pid

def remove_job (pid : Int) (s : Shell) : Shell :=
  { s with jobs := remove_entry s.jobs pid }

/-- The loop of `find_job_by_pid`, started at index `i`. -/
def find_from (i : Nat) : List Job → Int → Int
  | [], _ => -1
  | j :: js, pid => if j.pid = pid then (i : Int) else find_from (i + 1) js pid

def find_job_by_pid (jobs : List Job) (pid : Int) : Int := find_from 0 jobs pid

/-- The access `jobs[i]` for an index that the callers have checked to be in range. -/
def job_at (jobs : List Job) (i : Int) : Job := jobs.getD i.toNat ⟨0, [], 0⟩

/-! ## Signal handler (msh.c lines 91-117) -/

def getenv (env : List (List Char × List Char)) (name : List Char) : Option (List Char) :=
  (env.find? (fun p => p.1 == name)).map (fun p => p.2)

/-- The prompt: `getenv("PS1")`, or `"msh> "` when unset. -/
def prompt (s : Shell) : List Char := (getenv s.env "PS1".toList).getD "msh> ".toList

/-- The text of the completion notice printed by `handle_sigchld`. -/
def done_notice (idx : Int) (cmd : List Char) : List Char :=
  "\n[".toList ++ fmt_d idx ++ "]+  Done\t\t".toList ++ cmd ++ "\n".toList

/-- The body of the `while` loop of `handle_sigchld` for one reaped `(pid, status)`. -/
def sigchld_step (pid : Int) (status : Int) (s : Shell) : Shell :=
  if pid = s.foreground_pid then s
  else
    let job_idx := find_job_by_pid s.jobs pid
    if job_idx ≠ -1 then
      if WIFEXITED status || WIFSIGNALED status then
        let s1 := print s (done_notice (job_idx + 1) (job_at s.jobs job_idx).command)
        let s2 := remove_job pid s1
        print s2 (prompt s2)
      else s
    else s

/-- The function `handle_sigchld`: the list holds the successive results `(pid, status)` of
`waitpid(-1, &status, WNOHANG | WUNTRACED)`; the loop ends at the first result with
`pid <= 0`, and the end of the list stands for such a result. -/
def handle_sigchld : List (Int × Int) → Shell → Shell
  | [], s => s
  | (pid, status) :: rest, s =>
    if pid > 0 then handle_sigchld rest (sigchld_step pid status s) else s

/-! ## Builtins (msh.c lines 121-219) -/

def exec_cd (os : OS) (args : List (List Char)) (s : Shell) : Shell :=
  match args[1]? with
  | none => emit s (.stderr "msh: expected argument to \"cd\"\n".toList)
  | some dir =>
    let s1 := emit s (.chdir dir)
    if os.chdir dir then { s1 with last_exit_status := 0 }
    else { emit s1 (.perror "msh".toList) with last_exit_status := 1 }

def exec_pwd (os : OS) (s : Shell) : Shell :=
  match os.getcwd with
  | some cwd => { print s (cwd ++ "\n".toList) with last_exit_status := 0 }
  | none => { emit s (.perror "pwd".toList) with last_exit_status := 1 }

/-- The line printed by `exec_jobs` for `jobs[i]`. -/
def jobs_line (i : Nat) (j : Job) : List Char :=
  "[".toList ++ fmt_d ((i : Int) + 1) ++ "] ".toList
    ++ (if j.status = 0 then "Running".toList else "Stopped".toList)
    ++ " ".toList ++ j.command ++ " [".toList ++ fmt_d j.pid ++ "]\n".toList

/-- The `for` loop of `exec_jobs` from index `i` on: one `printf` per entry. -/
def jobs_lines (i : Nat) : List Job → List Event
  | [] => []
  | j :: js => Event.stdout (jobs_line i j) :: jobs_lines (i + 1) js

def exec_jobs (s : Shell) : Shell :=
  { s with trace := s.trace ++ jobs_lines 0 s.jobs, last_exit_status := 0 }

/-- The predicate `isspace` of the C locale. -/
def isspace (c : Char) : Bool :=
  c == ' ' || c == '\t' || c == '\n' || c == Char.ofNat 11 || c == Char.ofNat 12 || c == '\r'

/-- Reduction of a `long` to `int` (two's complement, 32 bits). -/
def to_int32 (x : Int) : Int := (x + 2 ^ 31) % 2 ^ 32 - 2 ^ 31

/-- The function `atoi` of glibc, `(int) strtol(s, NULL, 10)`: leading white space, an
optional sign, decimal digits; `strtol` saturates at the bounds of `long`. -/
def atoi (s : List Char) : Int :=
  let s1 := s.dropWhile isspace
  let neg := s1.head? == some '-'
  let s2 := if s1.head? == some '-' || s1.head? == some '+' then s1.drop 1 else s1
  let n : Nat := (s2.takeWhile Char.isDigit).foldl (fun a c => 10 * a + (c.toNat - 48)) 0
  let l : Int := if neg then - (min n (2 ^ 63) : Nat) else (min n (2 ^ 63 - 1) : Nat)
  to_int32 l

/-- The job index computed by `exec_fg` and `exec_bg` (lines 161-165 and 204-208):
the last job, or the one found for the pid `atoi(args[1])`. -/
def select_job (args : List (List Char)) (jobs : List Job) : Int :=
  match args[1]? with
  | none => (jobs.length : Int) - 1
  | some a => find_job_by_pid jobs (atoi a)

def exec_fg (os : OS) (args : List (List Char)) (s : Shell) : Shell :=
  if s.jobs.length = 0 then print s "msh: no current jobs\n".toList
  else
    let job_idx := select_job args s.jobs
    if job_idx = -1 then print s "msh: job not found\n".toList
    else
      let pid := (job_at s.jobs job_idx).pid
      let cmd_copy := (job_at s.jobs job_idx).command
      let s1 := remove_job pid s
      let s2 := { s1 with foreground_pid := pid }
      let s3 := print s2 (cmd_copy ++ "\n".toList)
      let s4 := emit s3 (.kill pid SIGCONT)
      let s5 := emit s4 (.waitpid pid)
      let status := (os.waitpid 0 pid).getD os.status
      let s6 := { s5 with foreground_pid := -1 }
      if WIFSTOPPED status then add_job pid cmd_copy 1 s6
      else { s6 with last_exit_status := WEXITSTATUS status }

/-- The assignment `jobs[i].status = v`. -/
def set_status (jobs : List Job) (i : Int) (v : Int) : List Job :=
  jobs.set i.toNat { job_at jobs i with status := v }

def exec_bg (args : List (List Char)) (s : Shell) : Shell :=
  if s.jobs.length = 0 then print s "msh: no current jobs\n".toList
  else
    let job_idx := select_job args s.jobs
    if job_idx = -1 || (job_at s.jobs job_idx).status = 0 then
      print s "msh: job not found or already running\n".toList
    else
      let pid := (job_at s.jobs job_idx).pid
      let s1 := { s with jobs := set_status s.jobs job_idx 0 }
      let s2 := print s1
        ("[".toList ++ fmt_d (job_idx + 1) ++ "]+ ".toList ++ (job_at s1.jobs job_idx).command
          ++ " &\n".toList)
      emit s2 (.kill pid SIGCONT)

/-! ## Command line buffer and `strtok` -/

/-- The C string that starts at offset `p` of the buffer `buf`; the end of the list stands
for the terminating NUL of the original line. -/
def cstr_at (buf : List Char) (p : Nat) : List Char :=
  (buf.drop p).takeWhile (fun c => c != NUL)

/-- The function `strspn(s, accept)`: length of the leading run of bytes of `s` that are
in `accept`. -/
def strspn (s : List Char) (accept : List Char) : Nat :=
  (s.takeWhile (fun c => c != NUL && accept.contains c)).length

/-- The function `strcspn(s, reject)`: length of the leading run of bytes of `s` that are
not in `reject`. -/
def strcspn (s : List Char) (reject : List Char) : Nat :=
  (s.takeWhile (fun c => c != NUL && !reject.contains c)).length

/-- Whether the byte at offset `p` is the end of the string. -/
def at_end (buf : List Char) (p : Nat) : Bool :=
  match buf[p]? with
  | none => true
  | some c => c == NUL

/-- One call of `strtok` scanning from offset `start` (the argument of a first call, the
saved pointer of a call with NULL): the result is the offset of the token or `none` for
NULL, the buffer after the call, and the new saved pointer. -/
def strtok (buf : List Char) (start : Nat) (delim : List Char) :
    Option Nat × List Char × Nat :=
  let tok := start + strspn (buf.drop start) delim
  if at_end buf tok then (none, buf, tok)
  else
    let e := tok + strcspn (buf.drop tok) delim
    if at_end buf e then (some tok, buf, e)
    else (some tok, buf.set e NUL, e + 1)

/-- The loop of lines 283-286, `while (token != NULL && n_cmds < MAX_ARGS)`: `room` is
`MAX_ARGS - n_cmds`, `commands` holds the offsets stored so far. -/
def split_loop : Nat → Option Nat → List Char → Nat → List Nat → List Nat × List Char
  | room + 1, some token, buf, save, commands =>
    let r := strtok buf save "|".toList
    split_loop room r.1 r.2.1 r.2.2 (commands ++ [token])
  | _, _, buf, _, commands => (commands, buf)

/-- Lines 280-286: the offsets `commands[0 .. n_cmds-1]` and the buffer after the calls. -/
def split_pipes (buf : List Char) : List Nat × List Char :=
  let r := strtok buf 0 "|".toList
  split_loop MAX_ARGS r.1 r.2.1 r.2.2 []

/-- The loop of lines 304-307, `while (subtoken != NULL)`. The C loop has no counter; every
call that returns a token moves the saved pointer forward, so `fuel` = buffer length + 1
iterations are never used up (`args_loop_fuel`, `tokenize_fuel`). -/
def args_loop : Nat → Option Nat → List Char → Nat → List Nat → List Nat × List Char
  | fuel + 1, some subtoken, buf, save, arg_tokens =>
    let r := strtok buf save " \t\n".toList
    args_loop fuel r.1 r.2.1 r.2.2 (arg_tokens ++ [subtoken])
  | _, _, buf, _, arg_tokens => (arg_tokens, buf)

/-- Lines 301-308: the offsets `arg_tokens[0 .. arg_count-1]` of the segment that starts at
offset `cmd`, and the buffer after the calls. -/
def tokenize (buf : List Char) (cmd : Nat) : List Nat × List Char :=
  let r := strtok buf cmd " \t\n".toList
  args_loop (buf.length + 1) r.1 r.2.1 r.2.2 []

/-! ## `execute_pipeline` (msh.c lines 260-399) -/

/-- The loop of lines 289-294 creating `n` more pipes, the next one being pipe `i`:
`false` when a `pipe()` call failed and `execute_pipeline` returned. -/
def open_pipes (os : OS) : Nat → Nat → Shell → Bool × Shell
  | 0, _, s => (true, s)
  | n + 1, i, s =>
    if os.pipe i then open_pipes os n (i + 1) (emit s (.pipe i))
    else (false, emit s (.perror "pipe".toList))

/-- The closing of all `k` descriptors `pipefd[0 .. k-1]` (lines 346-348 and 374-376). -/
def close_all (k : Nat) (s : Shell) : Shell :=
  { s with trace := s.trace ++ (List.range k).map Event.close }

/-- The child branch `pid == 0` of lines 334-361 for stage `i`; it ends the process. -/
def child (os : OS) (n_cmds : Nat) (i : Nat) (arg_tokens : List (List Char)) (s : Shell) :
    Shell :=
  let s1 := if i ≠ 0 then emit s (.dup2 ((i - 1) * 2) 0) else s
  let s2 := if i ≠ n_cmds - 1 then emit s1 (.dup2 (i * 2 + 1) 1) else s1
  let s3 := close_all (2 * (n_cmds - 1)) s2
  if arg_tokens.head? = some "pwd".toList then
    let s4 := exec_pwd os s3
    emit s4 (.exit s4.last_exit_status)
  else if arg_tokens.head? = some "jobs".toList then
    let s4 := exec_jobs s3
    emit s4 (.exit s4.last_exit_status)
  else
    let s4 := emit s3 (.execvp arg_tokens)
    if os.execvp arg_tokens then s4
    else emit (emit s4 (.perror "msh".toList)) (.exit 127)

/-- The assignment `pids[k] = pid`. -/
def set_pid (pids : Int → Int) (k : Nat) (pid : Int) : Int → Int :=
  fun j => if j = (k : Int) then pid else pids j

/-- How the loop of lines 299-371 ends. -/
inductive Spawn where
  /-- a `return` or `exit` inside the loop ended `execute_pipeline` -/
  | finished (s : Shell)
  /-- the loop ran to its end -/
  | spawned (buf : List Char) (pids : Int → Int) (cmd_idx : Nat) (s : Shell)

/-- The loop of lines 299-371 over the remaining segments, the next one having index `i`. -/
def spawn_loop (os : OS) (n_cmds : Nat) (is_bg : Bool) :
    List Nat → Nat → List Char → (Int → Int) → Nat → Shell → Spawn
  | [], _, buf, pids, cmd_idx, s => .spawned buf pids cmd_idx s
  | cmd :: rest, i, buf, pids, cmd_idx, s =>
    let t := tokenize buf cmd
    let arg_tokens := t.1.map (cstr_at t.2)
    match arg_tokens with
    | [] => spawn_loop os n_cmds is_bg rest (i + 1) t.2 pids cmd_idx s
    | arg0 :: _ =>
      if n_cmds = 1 ∧ arg0 = "exit".toList then .finished (emit s (.exit 0))
      else if n_cmds = 1 ∧ arg0 = "cd".toList then .finished (exec_cd os arg_tokens s)
      else if n_cmds = 1 ∧ arg0 = "fg".toList then .finished (exec_fg os arg_tokens s)
      else if n_cmds = 1 ∧ arg0 = "bg".toList then .finished (exec_bg arg_tokens s)
      else
        let pid := os.fork cmd_idx
        let s1 := emit s (.fork pid)
        if pid = 0 then .finished (child os n_cmds i arg_tokens s1)
        else if pid < 0 then .finished (emit s1 (.perror "fork".toList))
        else
          let s2 := if n_cmds = 1 ∧ is_bg = false then { s1 with foreground_pid := pid } else s1
          spawn_loop os n_cmds is_bg rest (i + 1) t.2 (set_pid pids cmd_idx pid) (cmd_idx + 1) s2

/-- The loop of lines 381-391 with `todo` iterations left, the next one having index `i`;
`line` is the string at `line` when the loop runs. -/
def wait_loop (os : OS) (n_cmds : Nat) (pids : Int → Int) (line : List Char) :
    Nat → Nat → Int → Shell → Shell
  | 0, _, _, s => s
  | todo + 1, i, status, s =>
    let s1 := emit s (.waitpid (pids i))
    let status1 := (os.waitpid i (pids i)).getD status
    let s2 :=
      if i + 1 = n_cmds then
        if WIFSTOPPED status1 then add_job (pids i) line 1 (print s1 "\n".toList)
        else if WIFEXITED status1 then { s1 with last_exit_status := WEXITSTATUS status1 }
        else s1
      else s1
    wait_loop os n_cmds pids line todo (i + 1) status1 s2

/-- Lines 379-392: the foreground branch after the spawn loop. -/
def foreground_wait (os : OS) (n_cmds : Nat) (pids : Int → Int) (line : List Char)
    (s : Shell) : Shell :=
  { wait_loop os n_cmds pids line n_cmds 0 os.status s with foreground_pid := -1 }

/-- How lines 261-376 end. -/
inductive Launch where
  /-- the function returned, or the process ended, before line 378 -/
  | returned (s : Shell)
  /-- line 378 is reached with these values of `n_cmds`, `is_bg`, the string at `line`
  and the array `pids` -/
  | launched (n_cmds : Nat) (is_bg : Bool) (line : List Char) (pids : Int → Int) (s : Shell)

/-- Lines 261-376 of `execute_pipeline`: the `PS1=` assignment, the removal of a trailing
`&`, the split at `|`, the pipes, the spawn loop and the closing of the pipes. The
caller (`main`) passes a non-empty line without NUL; fewer than `MAX_ARGS` tokens per
segment are assumed (more overflow `arg_tokens`). -/
def launch (os : OS) (line : List Char) (s : Shell) : Launch :=
  let eq := line.indexOf '='
  if line.contains '=' ∧ line.take 3 = "PS1".toList
      ∧ line.getD (eq - 1) NUL ≠ ' ' ∧ line.getD (eq + 1) NUL ≠ ' ' then
    .returned { emit s (.setenv (line.take eq) (line.drop (eq + 1))) with
      env := (line.take eq, line.drop (eq + 1)) :: s.env }
  else
    let is_bg : Bool := line.getLast? = some '&'
    let buf0 := if is_bg then line.set (line.length - 1) NUL else line
    let sp := split_pipes buf0
    let n_cmds := sp.1.length
    match open_pipes os (n_cmds - 1) 0 s with
    | (false, s1) => .returned s1
    | (true, s1) =>
      match spawn_loop os n_cmds is_bg sp.1 0 sp.2 os.pids 0 s1 with
      | .finished s2 => .returned s2
      | .spawned buf pids _ s2 =>
        .launched n_cmds is_bg (cstr_at buf 0) pids (close_all (2 * (n_cmds - 1)) s2)

/-- The function `execute_pipeline`: `launch`, then lines 378-398. -/
def execute_pipeline (os : OS) (line : List Char) (s : Shell) : Shell :=
  match launch os line s with
  | .returned s1 => s1
  | .launched n_cmds is_bg line1 pids s1 =>
    if is_bg = false then foreground_wait os n_cmds pids line1 s1
    else add_job (pids ((n_cmds : Int) - 1)) line1 0 s1

/-! ## Specification-side definitions -/

/-- The condition of the specification for the removal of a job by the reaper, given the
drained notifications `ns` and the foreground pid `fg`: the pid of the job was reported
with a terminal status (exited or killed) and is not the foreground pid. -/
def reaped (ns : List (Int × Int)) (fg : Int) (j : Job) : Bool :=
  j.pid != fg && ns.any (fun n => n.1 == j.pid && (WIFEXITED n.2 || WIFSIGNALED n.2))

/-! ## Concrete inputs used by the witnesses -/

/-- An operating system on which every call succeeds: the k-th fork returns pid 100 + k,
every awaited process reports a normal exit with code 0; uninitialised memory reads 77. -/
def os_ok : OS :=
  ⟨fun _ => true, fun k => 100 + (k : Int), fun _ _ => some 0, fun _ => true, none,
    fun _ => true, fun _ => 77, 0⟩

/-- A full job table: MAX_JOBS running jobs with pids 1 to 20. -/
def full_table : List Job :=
  (List.range MAX_JOBS).map (fun k => ⟨(k : Int) + 1, "sleep 9".toList, 0⟩)

/-- A table of three jobs, with pid 50 in the foreground. -/
def reap_table : Shell :=
  ⟨[⟨10, "make".toList, 0⟩, ⟨11, "sleep 5".toList, 0⟩, ⟨12, "vi".toList, 1⟩], 0, 50, [], []⟩

/-- Drained notifications: 11 exited, the foreground pid 50 exited, the unknown pid 99
exited, 12 stopped (status 0x137f), 10 killed by signal 9. -/
def reap_notes : List (Int × Int) := [(11, 0), (50, 0), (99, 0), (12, 4991), (10, 9)]

/-- An operating system on which the awaited process is killed by signal 9 (status 9). -/
def os_killed : OS :=
  ⟨fun _ => true, fun k => 100 + (k : Int), fun _ _ => some 9, fun _ => true, none,
    fun _ => true, fun _ => 77, 0⟩

/-- An operating system on which the awaited process exits with code 1 (status 0x0100). -/
def os_exit1 : OS :=
  ⟨fun _ => true, fun k => 100 + (k : Int), fun _ _ => some 256, fun _ => true, none,
    fun _ => true, fun _ => 77, 0⟩

/-- An operating system on which the first awaited process exits with code 3 (status
0x0300) and every later blocking waitpid fails, as it does when the child has already been
reaped; the uninitialised status reads 0. -/
def os_last_wait_fails : OS :=
  ⟨fun _ => true, fun k => 100 + (k : Int), fun k _ => if k = 0 then some 768 else none,
    fun _ => true, none, fun _ => true, fun _ => 77, 0⟩

/-! ## Basic facts about the state -/

@[simp] theorem emit_jobs (s : Shell) (e : Event) : (emit s e).jobs = s.jobs := rfl
@[simp] theorem emit_fg (s : Shell) (e : Event) :
    (emit s e).foreground_pid = s.foreground_pid := rfl
@[simp] theorem emit_les (s : Shell) (e : Event) :
    (emit s e).last_exit_status = s.last_exit_status := rfl
@[simp] theorem emit_env (s : Shell) (e : Event) : (emit s e).env = s.env := rfl
@[simp] theorem emit_trace (s : Shell) (e : Event) : (emit s e).trace = s.trace ++ [e] := rfl
@[simp] theorem print_jobs (s : Shell) (t : List Char) : (print s t).jobs = s.jobs := rfl
@[simp] theorem print_fg (s : Shell) (t : List Char) :
    (print s t).foreground_pid = s.foreground_pid := rfl
@[simp] theorem print_les (s : Shell) (t : List Char) :
    (print s t).last_exit_status = s.last_exit_status := rfl
@[simp] theorem print_env (s : Shell) (t : List Char) : (print s t).env = s.env := rfl
@[simp] theorem print_trace (s : Shell) (t : List Char) :
    (print s t).trace = s.trace ++ [Event.stdout t] := rfl

theorem add_job_jobs (pid : Int) (cmd : List Char) (status : Int) (s : Shell) :
    (add_job pid cmd status s).jobs =
      if s.jobs.length < MAX_JOBS then s.jobs ++ [⟨pid, cmd.take MAX_CMD_LEN, status⟩]
      else s.jobs := by
  unfold add_job
  by_cases h : s.jobs.length < MAX_JOBS
  · by_cases h0 : status = 0 <;> simp [h, h0, strncpy]
  · simp [h]

@[simp] theorem add_job_fg (pid : Int) (cmd : List Char) (status : Int) (s : Shell) :
    (add_job pid cmd status s).foreground_pid = s.foreground_pid := by
  unfold add_job
  by_cases h : s.jobs.length < MAX_JOBS
  · by_cases h0 : status = 0 <;> simp [h, h0]
  · simp [h]

@[simp] theorem add_job_les (pid : Int) (cmd : List Char) (status : Int) (s : Shell) :
    (add_job pid cmd status s).last_exit_status = s.last_exit_status := by
  unfold add_job
  by_cases h : s.jobs.length < MAX_JOBS
  · by_cases h0 : status = 0 <;> simp [h, h0]
  · simp [h]

/-! ## Facts about lookup and removal in the job table -/

theorem job_at_of_getElem (jobs : List Job) (k : Nat) (j : Job) (h : jobs[k]? = some j) :
    job_at jobs (k : Int) = j := by
  simp [job_at, List.getD, h]

theorem find_from_ne_neg_one (i : Nat) (js : List Job) (pid : Int) :
    (find_from i js pid = -1 ∧ ∀ j ∈ js, j.pid ≠ pid) ∨
    (∃ (k : Nat) (j : Job), js[k]? = some j ∧ j.pid = pid ∧
      find_from i js pid = ((i + k : Nat) : Int) ∧ remove_entry js pid = js.eraseIdx k) := by
  induction js generalizing i with
  | nil => left; simp [find_from]
  | cons j0 js ih =>
    by_cases h0 : j0.pid = pid
    · right
      exact ⟨0, j0, by simp, h0, by simp [find_from, h0], by simp [remove_entry, h0]⟩
    · rcases ih (i + 1) with ⟨h1, h2⟩ | ⟨k, j, hk, hj, hf, hr⟩
      · left
        refine ⟨by simp [find_from, h0, h1], ?_⟩
        intro j hj
        rcases List.mem_cons.mp hj with rfl | hj
        · exact h0
        · exact h2 j hj
      · right
        refine ⟨k + 1, j, by simpa using hk, hj, ?_, ?_⟩
        · simp only [find_from, h0, if_false, hf]
          congr 1
          omega
        · simp [remove_entry, h0, hr]

theorem find_job_by_pid_cases (js : List Job) (pid : Int) :
    (find_job_by_pid js pid = -1 ∧ ∀ j ∈ js, j.pid ≠ pid) ∨
    (∃ (k : Nat) (j : Job), js[k]? = some j ∧ j.pid = pid ∧
      find_job_by_pid js pid = (k : Int) ∧ remove_entry js pid = js.eraseIdx k) := by
  rcases find_from_ne_neg_one 0 js pid with h | ⟨k, j, hk, hj, hf, hr⟩
  · exact Or.inl h
  · exact Or.inr ⟨k, j, hk, hj, by simpa [find_job_by_pid] using hf, hr⟩

theorem select_job_cases (args : List (List Char)) (jobs : List Job) (h : jobs ≠ []) :
    select_job args jobs = -1 ∨
    ∃ (k : Nat) (j : Job), select_job args jobs = (k : Int) ∧ jobs[k]? = some j := by
  unfold select_job
  cases args[1]? with
  | none =>
    right
    have hl : 0 < jobs.length := List.length_pos.mpr h
    have hlt : jobs.length - 1 < jobs.length := by omega
    refine ⟨jobs.length - 1, jobs[jobs.length - 1], ?_, by simp [hlt]⟩
    simp only
    omega
  | some a =>
    rcases find_job_by_pid_cases jobs (atoi a) with ⟨h1, _⟩ | ⟨k, j, hk, _, hf, _⟩
    · exact Or.inl h1
    · exact Or.inr ⟨k, j, hf, hk⟩

/-! ## The fuel of `args_loop` is never used up -/

theorem at_end_false_lt (buf : List Char) (p : Nat) (h : at_end buf p = false) :
    p < buf.length := by
  rcases Nat.lt_or_ge p buf.length with h1 | h1
  · exact h1
  · simp [at_end, List.getElem?_eq_none h1] at h

theorem strcspn_le (s reject : List Char) : strcspn s reject ≤ s.length := by
  unfold strcspn
  exact (List.takeWhile_sublist _).length_le

/-- A call of strtok that returns a token leaves the saved pointer behind the start of
the token and inside the buffer, whose length it keeps. -/
theorem strtok_some (buf : List Char) (start : Nat) (delim : List Char) (t : Nat)
    (h : (strtok buf start delim).1 = some t) :
    start ≤ t ∧ t < (strtok buf start delim).2.2 ∧
    (strtok buf start delim).2.2 ≤ buf.length ∧
    (strtok buf start delim).2.1.length = buf.length := by
  unfold strtok at h ⊢
  dsimp only at h ⊢
  by_cases h1 : at_end buf (start + strspn (buf.drop start) delim) = true
  · rw [if_pos h1] at h
    cases h
  · rw [if_neg h1] at h ⊢
    have hlt := at_end_false_lt buf _ (by simpa using h1)
    have hle := strcspn_le (buf.drop (start + strspn (buf.drop start) delim)) delim
    rw [List.length_drop] at hle
    by_cases h2 : at_end buf (start + strspn (buf.drop start) delim
        + strcspn (buf.drop (start + strspn (buf.drop start) delim)) delim) = true
    · rw [if_pos h2] at h ⊢
      simp only [Option.some.injEq] at h
      subst h
      refine ⟨by omega, ?_, by simp only; omega, rfl⟩
      simp only
      rcases Nat.eq_zero_or_pos
        (strcspn (buf.drop (start + strspn (buf.drop start) delim)) delim) with h0 | h0
      · rw [h0, Nat.add_zero] at h2
        exact absurd h2 h1
      · omega
    · rw [if_neg h2] at h ⊢
      have hlt2 := at_end_false_lt buf _ (by simpa using h2)
      simp only [Option.some.injEq] at h
      subst h
      exact ⟨by omega, by simp only; omega, by simp only; omega, by simp⟩

theorem args_loop_none (fuel : Nat) (buf : List Char) (save : Nat) (acc : List Nat) :
    args_loop fuel none buf save acc = (acc, buf) := by
  cases fuel <;> rfl

/-- One more unit of fuel does not change the result of args_loop once the fuel covers
the part of the buffer behind the saved pointer. -/
theorem args_loop_fuel (fuel : Nat) (tok : Option Nat) (buf : List Char) (save : Nat)
    (acc : List Nat) (h : buf.length + 1 ≤ fuel + save) (hs : save ≤ buf.length) :
    args_loop (fuel + 1) tok buf save acc = args_loop fuel tok buf save acc := by
  induction fuel generalizing tok buf save acc with
  | zero => omega
  | succ fuel ih =>
    cases tok with
    | none => rw [args_loop_none, args_loop_none]
    | some t =>
      rw [args_loop, args_loop]
      cases hr : (strtok buf save " \t\n".toList).1 with
      | none => rw [args_loop_none, args_loop_none]
      | some t2 =>
        obtain ⟨h1, h2, h3, h4⟩ := strtok_some buf save _ t2 hr
        exact ih _ _ _ _ (by rw [h4]; omega) (by rw [h4]; exact h3)

/-- The loop in tokenize stops because strtok returned NULL, not for lack of fuel: any
larger amount of fuel gives the same tokens and the same buffer. -/
theorem tokenize_fuel (buf : List Char) (cmd : Nat) (extra : Nat) :
    args_loop (buf.length + 1 + extra) (strtok buf cmd " \t\n".toList).1
        (strtok buf cmd " \t\n".toList).2.1 (strtok buf cmd " \t\n".toList).2.2 []
      = tokenize buf cmd := by
  unfold tokenize
  dsimp only
  cases hr : (strtok buf cmd " \t\n".toList).1 with
  | none => rw [args_loop_none, args_loop_none]
  | some t =>
    obtain ⟨h1, h2, h3, h4⟩ := strtok_some buf cmd _ t hr
    induction extra with
    | zero => rfl
    | succ extra ih =>
      rw [← ih]
      have e : buf.length + 1 + (extra + 1) = (buf.length + 1 + extra) + 1 := by omega
      rw [e]
      exact args_loop_fuel _ _ _ _ _ (by rw [h4]; omega) (by rw [h4]; exact h3)

/-! ## C5: capacity of the job table -/

/-- C5: the job table never holds more than MAX_JOBS entries. On a full table add_job
changes no entry and writes the diagnostic "Job list full!" to stderr; on a table with
room it appends exactly one entry (the given pid and status, the command copied by
strncpy) behind the unchanged earlier entries. -/
theorem C5_add_job_capacity (pid : Int) (cmd : List Char) (status : Int) (s : Shell)
    (h : s.jobs.length ≤ MAX_JOBS) :
    (add_job pid cmd status s).jobs.length ≤ MAX_JOBS ∧
    (s.jobs.length = MAX_JOBS →
      (add_job pid cmd status s).jobs = s.jobs ∧
      (add_job pid cmd status s).trace = s.trace ++ [Event.stderr "Job list full!\n".toList]) ∧
    (s.jobs.length < MAX_JOBS →
      ∃ j : Job, (add_job pid cmd status s).jobs = s.jobs ++ [j] ∧ j.pid = pid ∧
        j.status = status ∧ j.command = cmd.take MAX_CMD_LEN) := by
  refine ⟨?_, ?_, ?_⟩
  · rw [add_job_jobs]
    split
    · simp only [List.length_append, List.length_singleton]; omega
    · exact h
  · intro hfull
    have hn : ¬ s.jobs.length < MAX_JOBS := by omega
    constructor
    · rw [add_job_jobs, if_neg hn]
    · simp [add_job, hn]
  · intro hlt
    exact ⟨⟨pid, cmd.take MAX_CMD_LEN, status⟩, by rw [add_job_jobs, if_pos hlt], rfl, rfl, rfl⟩

/-- Witness of C5: a twenty-first job is rejected with the diagnostic and the table of
twenty jobs stays as it was. -/
theorem C5_add_job_capacity_witness :
    full_table.length = MAX_JOBS ∧
    (add_job 99 "ls".toList 0 ⟨full_table, 0, -1, [], []⟩).jobs = full_table ∧
    (add_job 99 "ls".toList 0 ⟨full_table, 0, -1, [], []⟩).trace
      = [] ++ [Event.stderr "Job list full!\n".toList] :=
  ⟨by decide,
    ((C5_add_job_capacity 99 "ls".toList 0 ⟨full_table, 0, -1, [], []⟩ (by decide)).2.1
      (by decide))⟩

/-! ## C10: `jobs` is a pure read -/

theorem jobs_lines_enumFrom (js : List Job) (i : Nat) :
    jobs_lines i js = (js.enumFrom i).map (fun p => Event.stdout (jobs_line p.1 p.2)) := by
  induction js generalizing i with
  | nil => rfl
  | cons j js ih => simp [jobs_lines, List.enumFrom, ih]

/-- C10: exec_jobs leaves the job table as it is, and what it prints is one line per entry
in table order, the line of the entry at index k (display index k + 1, so 1 up to job_count
without gaps) being "[k+1] Running|Stopped command [pid]"; a second call right after the
first prints the same lines again. -/
theorem C10_exec_jobs_pure_read (s : Shell) :
    (exec_jobs s).jobs = s.jobs ∧
    (exec_jobs s).trace = s.trace ++ s.jobs.enum.map (fun p =>
      Event.stdout ("[".toList ++ fmt_d ((p.1 : Int) + 1) ++ "] ".toList
        ++ (if p.2.status = 0 then "Running".toList else "Stopped".toList)
        ++ " ".toList ++ p.2.command ++ " [".toList ++ fmt_d p.2.pid ++ "]\n".toList)) ∧
    (exec_jobs (exec_jobs s)).trace.drop (exec_jobs s).trace.length
      = (exec_jobs s).trace.drop s.trace.length := by
  refine ⟨rfl, ?_, ?_⟩
  · show s.trace ++ jobs_lines 0 s.jobs = _
    rw [jobs_lines_enumFrom]
    rfl
  · have h1 : (exec_jobs (exec_jobs s)).trace = (exec_jobs s).trace ++ jobs_lines 0 s.jobs := rfl
    have h2 : (exec_jobs s).trace = s.trace ++ jobs_lines 0 s.jobs := rfl
    rw [h1, List.drop_left, h2, List.drop_left]

/-- The listing of a table with a running and a stopped job. -/
theorem exec_jobs_listing :
    (exec_jobs ⟨[⟨4711, "sleep 5".toList, 0⟩, ⟨4712, "vi".toList, 1⟩], 3, -1, [], []⟩).trace
      = [Event.stdout "[1] Running sleep 5 [4711]\n".toList,
         Event.stdout "[2] Stopped vi [4712]\n".toList] := by
  decide

/-! ## C2: `fg` without a matching job -/

/-- C2 as stated fails: for "fg 9999" on the empty table the message is
"msh: no current jobs", not "msh: job not found". -/
theorem C2_fg_empty_table_message :
    (exec_fg os_ok ["fg".toList, "9999".toList] Shell.init).trace
        = [Event.stdout "msh: no current jobs\n".toList] ∧
    (exec_fg os_ok ["fg".toList, "9999".toList] Shell.init).trace
        ≠ [Event.stdout "msh: job not found\n".toList] := by
  decide

/-- C2 (amended): exec_fg on an empty job table prints "msh: no current jobs"; on a
non-empty table, when a pid argument is given and no job has that pid, it prints
"msh: job not found". In both cases that one line on stdout is the only effect: no signal
is sent, no process is awaited, and the table, foreground_pid and last_exit_status stay as
they were. -/
theorem C2_exec_fg_no_job (os : OS) (args : List (List Char)) (s : Shell) :
    (s.jobs = [] → exec_fg os args s = print s "msh: no current jobs\n".toList) ∧
    (s.jobs ≠ [] → ∀ a : List Char, args[1]? = some a → (∀ j ∈ s.jobs, j.pid ≠ atoi a) →
      exec_fg os args s = print s "msh: job not found\n".toList) := by
  constructor
  · intro h
    simp [exec_fg, h]
  · intro h a ha hno
    have hl : s.jobs.length ≠ 0 := by
      intro h0
      exact h (List.length_eq_zero.mp h0)
    have hsel : select_job args s.jobs = -1 := by
      unfold select_job
      rw [ha]
      rcases find_job_by_pid_cases s.jobs (atoi a) with ⟨h1, _⟩ | ⟨k, j, hk, hj, _, _⟩
      · exact h1
      · exact absurd hj (hno j (List.getElem?_mem hk))
    simp [exec_fg, hl, hsel]

/-- Witness of C2 (amended): "fg 9999" on the empty table, and on a table that holds only
pid 4711. -/
theorem C2_exec_fg_no_job_witness :
    exec_fg os_ok ["fg".toList, "9999".toList] Shell.init
      = print Shell.init "msh: no current jobs\n".toList ∧
    exec_fg os_ok ["fg".toList, "9999".toList] ⟨[⟨4711, "vi".toList, 1⟩], 0, -1, [], []⟩
      = print ⟨[⟨4711, "vi".toList, 1⟩], 0, -1, [], []⟩ "msh: job not found\n".toList :=
  ⟨(C2_exec_fg_no_job os_ok ["fg".toList, "9999".toList] Shell.init).1 rfl,
   (C2_exec_fg_no_job os_ok ["fg".toList, "9999".toList]
      ⟨[⟨4711, "vi".toList, 1⟩], 0, -1, [], []⟩).2 (by decide) "9999".toList rfl (by decide)⟩

/-! ## C7: `bg` -/

theorem set_status_of_getElem (jobs : List Job) (k : Nat) (j : Job) (v : Int)
    (h : jobs[k]? = some j) :
    set_status jobs (k : Int) v = jobs.set k { j with status := v } := by
  simp [set_status, job_at_of_getElem jobs k j h]

theorem length_ne_zero_of_getElem (jobs : List Job) (k : Nat) (j : Job)
    (h : jobs[k]? = some j) : jobs.length ≠ 0 := by
  intro h0
  rw [List.length_eq_zero.mp h0] at h
  simp at h

/-- C7: when the job selected by exec_bg (the one found for the given pid, or the last
entry when no pid is given) is Running, exec_bg prints
"msh: job not found or already running" and does nothing else (no signal, table
unchanged). When the selected job is Stopped, only the state field of that entry changes,
to Running, the resume notice is printed and SIGCONT is sent. The table changes in no
other situation. -/
theorem C7_exec_bg_running_or_stopped (args : List (List Char)) (s : Shell) :
    (∀ (k : Nat) (j : Job), select_job args s.jobs = (k : Int) → s.jobs[k]? = some j →
      j.status = 0 →
      exec_bg args s = print s "msh: job not found or already running\n".toList) ∧
    (∀ (k : Nat) (j : Job), select_job args s.jobs = (k : Int) → s.jobs[k]? = some j →
      j.status ≠ 0 →
      (exec_bg args s).jobs = s.jobs.set k { j with status := 0 } ∧
      (exec_bg args s).trace = s.trace ++
        [Event.stdout ("[".toList ++ fmt_d ((k : Int) + 1) ++ "]+ ".toList ++ j.command
          ++ " &\n".toList),
         Event.kill j.pid SIGCONT]) ∧
    ((exec_bg args s).jobs ≠ s.jobs →
      ∃ (k : Nat) (j : Job), select_job args s.jobs = (k : Int) ∧ s.jobs[k]? = some j ∧
        j.status ≠ 0) := by
  refine ⟨?_, ?_, ?_⟩
  · intro k j hsel hk hst
    have hl := length_ne_zero_of_getElem s.jobs k j hk
    simp [exec_bg, hl, hsel, job_at_of_getElem s.jobs k j hk, hst]
  · intro k j hsel hk hst
    have hl := length_ne_zero_of_getElem s.jobs k j hk
    have hk1 : ((k : Int) = -1) = False := by
      simp only [eq_iff_iff, iff_false]
      omega
    have hlt : k < s.jobs.length := by
      rcases Nat.lt_or_ge k s.jobs.length with h | h
      · exact h
      · rw [List.getElem?_eq_none h] at hk; simp at hk
    have hk2 : (s.jobs.set k { j with status := 0 })[k]? = some { j with status := 0 } := by
      simp [hlt]
    simp [exec_bg, hl, hsel, job_at_of_getElem s.jobs k j hk, hst, hk1,
      set_status_of_getElem s.jobs k j 0 hk, job_at_of_getElem _ k _ hk2, emit]
  · intro hne
    by_cases hl : s.jobs.length = 0
    · exact absurd (by simp [exec_bg, hl]) hne
    · have hne0 : s.jobs ≠ [] := fun h => hl (by simp [h])
      rcases select_job_cases args s.jobs hne0 with h1 | ⟨k, j, hsel, hk⟩
      · exact absurd (by simp [exec_bg, hl, h1]) hne
      · refine ⟨k, j, hsel, hk, ?_⟩
        intro hst
        exact absurd (by simp [exec_bg, hl, hsel, job_at_of_getElem s.jobs k j hk, hst]) hne

/-- Witness of C7: "bg" on a table whose last job is Running, and "bg 4712" on a Stopped
job. -/
theorem C7_exec_bg_witness :
    exec_bg ["bg".toList] ⟨[⟨4711, "sleep 5".toList, 0⟩], 0, -1, [], []⟩
      = print ⟨[⟨4711, "sleep 5".toList, 0⟩], 0, -1, [], []⟩
          "msh: job not found or already running\n".toList ∧
    (exec_bg ["bg".toList, "4712".toList]
        ⟨[⟨4711, "sleep 5".toList, 0⟩, ⟨4712, "vi".toList, 1⟩, ⟨4713, "top".toList, 1⟩],
          0, -1, [], []⟩).jobs
      = [⟨4711, "sleep 5".toList, 0⟩, ⟨4712, "vi".toList, 0⟩, ⟨4713, "top".toList, 1⟩] :=
  ⟨(C7_exec_bg_running_or_stopped ["bg".toList]
      ⟨[⟨4711, "sleep 5".toList, 0⟩], 0, -1, [], []⟩).1 0 ⟨4711, "sleep 5".toList, 0⟩
      (by decide) (by decide) (by decide),
   ((C7_exec_bg_running_or_stopped ["bg".toList, "4712".toList]
      ⟨[⟨4711, "sleep 5".toList, 0⟩, ⟨4712, "vi".toList, 1⟩, ⟨4713, "top".toList, 1⟩],
        0, -1, [], []⟩).2.1 1 ⟨4712, "vi".toList, 1⟩ (by decide) (by decide) (by decide)).1⟩

/-! ## C4: distinct pids -/

theorem remove_entry_sublist (js : List Job) (pid : Int) : (remove_entry js pid).Sublist js := by
  induction js with
  | nil => exact List.Sublist.refl _
  | cons j0 js ih =>
    by_cases h0 : j0.pid = pid
    · simp only [remove_entry, h0, if_true]
      exact List.sublist_cons_self _ _
    · simp only [remove_entry, h0, if_false]
      exact ih.cons₂ _

theorem remove_entry_nodup (js : List Job) (pid : Int) (h : (js.map Job.pid).Nodup) :
    ((remove_entry js pid).map Job.pid).Nodup :=
  h.sublist ((remove_entry_sublist js pid).map _)

theorem remove_entry_eq_filter (js : List Job) (pid : Int) (h : (js.map Job.pid).Nodup) :
    remove_entry js pid = js.filter (fun j => j.pid != pid) := by
  induction js with
  | nil => rfl
  | cons j0 js ih =>
    rw [List.map_cons, List.nodup_cons] at h
    by_cases h0 : j0.pid = pid
    · have hall : ∀ j ∈ js, (j.pid != pid) = true := by
        intro j hj
        simp only [bne_iff_ne, ne_eq]
        intro he
        exact h.1 (by rw [h0, ← he]; exact List.mem_map_of_mem _ hj)
      simp [remove_entry, h0, List.filter_eq_self.mpr hall]
    · simp [remove_entry, h0, ih h.2]

theorem not_mem_remove_entry (js : List Job) (pid : Int) (h : (js.map Job.pid).Nodup) :
    pid ∉ (remove_entry js pid).map Job.pid := by
  rw [remove_entry_eq_filter js pid h]
  simp

theorem sigchld_step_jobs (pid status : Int) (s : Shell) :
    (sigchld_step pid status s).jobs = s.jobs ∨
    (sigchld_step pid status s).jobs = remove_entry s.jobs pid := by
  unfold sigchld_step
  by_cases h1 : pid = s.foreground_pid
  · simp [h1]
  · by_cases h2 : find_job_by_pid s.jobs pid = -1
    · simp [h1, h2]
    · by_cases h3 : (WIFEXITED status || WIFSIGNALED status) = true
      · right
        simp only [h1, h2, h3, if_false, if_true, ne_eq, not_false_eq_true]
        rfl
      · simp [h1, h2, h3]

theorem sigchld_step_nodup (pid status : Int) (s : Shell) (h : (s.jobs.map Job.pid).Nodup) :
    ((sigchld_step pid status s).jobs.map Job.pid).Nodup := by
  rcases sigchld_step_jobs pid status s with h1 | h1 <;> rw [h1]
  · exact h
  · exact remove_entry_nodup _ _ h

theorem handle_sigchld_nodup (ns : List (Int × Int)) (s : Shell)
    (h : (s.jobs.map Job.pid).Nodup) : ((handle_sigchld ns s).jobs.map Job.pid).Nodup := by
  induction ns generalizing s with
  | nil => exact h
  | cons n ns ih =>
    obtain ⟨pid, status⟩ := n
    unfold handle_sigchld
    split
    · exact ih _ (sigchld_step_nodup pid status s h)
    · exact h

theorem add_job_nodup (pid : Int) (cmd : List Char) (status : Int) (s : Shell)
    (h : (s.jobs.map Job.pid).Nodup) (hnew : pid ∉ s.jobs.map Job.pid) :
    ((add_job pid cmd status s).jobs.map Job.pid).Nodup := by
  rw [add_job_jobs]
  split
  · rw [List.map_append, List.map_singleton]
    exact List.Nodup.append h (List.nodup_singleton _) (by simpa using hnew)
  · exact h

theorem set_status_pids (jobs : List Job) (i : Int) (v : Int) :
    (set_status jobs i v).map Job.pid = jobs.map Job.pid := by
  unfold set_status job_at
  apply List.ext_getElem?
  intro n
  simp only [List.getElem?_map, List.getElem?_set]
  by_cases hn : i.toNat = n
  · subst hn
    by_cases hl : i.toNat < jobs.length
    · simp [hl, List.getD]
    · simp [hl, List.getElem?_eq_none (Nat.le_of_not_lt hl)]
  · simp [hn]

theorem exec_bg_pids (args : List (List Char)) (s : Shell) :
    (exec_bg args s).jobs.map Job.pid = s.jobs.map Job.pid := by
  unfold exec_bg
  split
  · rfl
  · dsimp only
    split
    · rfl
    · simp [set_status_pids]

theorem nat_cast_ne_neg_one (k : Nat) : ((k : Int) = -1) = False := by
  simp only [eq_iff_iff, iff_false]
  omega

/-- The effect of exec_fg once a job is selected: entry `k` with contents `j`. -/
theorem exec_fg_selected (os : OS) (args : List (List Char)) (s : Shell) (k : Nat) (j : Job)
    (hsel : select_job args s.jobs = (k : Int)) (hk : s.jobs[k]? = some j) :
    exec_fg os args s =
      if WIFSTOPPED ((os.waitpid 0 j.pid).getD os.status) = true then
        add_job j.pid j.command 1
          { s with
            jobs := remove_entry s.jobs j.pid, foreground_pid := -1,
            trace := s.trace ++ [Event.stdout (j.command ++ "\n".toList),
              Event.kill j.pid SIGCONT, Event.waitpid j.pid] }
      else
        { s with
          jobs := remove_entry s.jobs j.pid, foreground_pid := -1,
          last_exit_status := WEXITSTATUS ((os.waitpid 0 j.pid).getD os.status),
          trace := s.trace ++ [Event.stdout (j.command ++ "\n".toList),
            Event.kill j.pid SIGCONT, Event.waitpid j.pid] } := by
  have hl := length_ne_zero_of_getElem s.jobs k j hk
  simp [exec_fg, hl, hsel, nat_cast_ne_neg_one, job_at_of_getElem s.jobs k j hk, remove_job,
    emit, print]

theorem exec_fg_nodup (os : OS) (args : List (List Char)) (s : Shell)
    (h : (s.jobs.map Job.pid).Nodup) : ((exec_fg os args s).jobs.map Job.pid).Nodup := by
  by_cases hl : s.jobs.length = 0
  · simpa [exec_fg, hl] using h
  · have hne0 : s.jobs ≠ [] := fun h => hl (by simp [h])
    rcases select_job_cases args s.jobs hne0 with h1 | ⟨k, j, hsel, hk⟩
    · simpa [exec_fg, hl, h1] using h
    · rw [exec_fg_selected os args s k j hsel hk]
      split
      · apply add_job_nodup
        · exact remove_entry_nodup _ _ h
        · exact not_mem_remove_entry _ _ h
      · exact remove_entry_nodup _ _ h

/-- C4 as stated fails: add_job does not look for the pid in the table, so adding pid 7
twice, starting from the empty table, leaves two entries with pid 7. -/
theorem C4_add_job_duplicate_pid :
    ¬ ((add_job 7 "b".toList 0 (add_job 7 "a".toList 0 Shell.init)).jobs.map Job.pid).Nodup := by
  decide

/-- C4 (amended): the empty table has pairwise distinct pids, and on a table with pairwise
distinct pids remove_job, the state flip of exec_bg, the remove and re-add of exec_fg and
the removals of handle_sigchld all yield a table with pairwise distinct pids; add_job
does so when the pid it is given is not already in the table. -/
theorem C4_distinct_pids_preserved :
    (Shell.init.jobs.map Job.pid).Nodup ∧
    ∀ s : Shell, (s.jobs.map Job.pid).Nodup →
      (∀ (pid : Int) (cmd : List Char) (status : Int), pid ∉ s.jobs.map Job.pid →
        ((add_job pid cmd status s).jobs.map Job.pid).Nodup) ∧
      (∀ pid : Int, ((remove_job pid s).jobs.map Job.pid).Nodup) ∧
      (∀ args : List (List Char), ((exec_bg args s).jobs.map Job.pid).Nodup) ∧
      (∀ (os : OS) (args : List (List Char)), ((exec_fg os args s).jobs.map Job.pid).Nodup) ∧
      (∀ ns : List (Int × Int), ((handle_sigchld ns s).jobs.map Job.pid).Nodup) := by
  refine ⟨List.nodup_nil, ?_⟩
  intro s h
  refine ⟨?_, ?_, ?_, ?_, ?_⟩
  · intro pid cmd status hnew
    exact add_job_nodup pid cmd status s h hnew
  · intro pid
    exact remove_entry_nodup _ _ h
  · intro args
    rw [exec_bg_pids]
    exact h
  · intro os args
    exact exec_fg_nodup os args s h
  · intro ns
    exact handle_sigchld_nodup ns s h

/-- Witness of C4 (amended): a second job with a new pid keeps the pids distinct. -/
theorem C4_distinct_pids_witness :
    ((add_job 8 "b".toList 0 (add_job 7 "a".toList 0 Shell.init)).jobs.map Job.pid).Nodup :=
  ((C4_distinct_pids_preserved.2 (add_job 7 "a".toList 0 Shell.init) (by decide)).1
    8 "b".toList 0 (by decide))

/-! ## C6: `fg` followed by a stop -/

theorem sigchld_step_fg (pid status : Int) (s : Shell) :
    (sigchld_step pid status s).foreground_pid = s.foreground_pid := by
  unfold sigchld_step
  by_cases h1 : pid = s.foreground_pid
  · simp [h1]
  · by_cases h2 : find_job_by_pid s.jobs pid = -1
    · simp [h1, h2]
    · by_cases h3 : (WIFEXITED status || WIFSIGNALED status) = true
      · simp only [h1, h2, h3, if_false, if_true, ne_eq, not_false_eq_true]
        rfl
      · simp [h1, h2, h3]

theorem handle_sigchld_eq_foldl (ns : List (Int × Int)) (s : Shell)
    (hpos : ∀ n ∈ ns, 0 < n.1) :
    handle_sigchld ns s = ns.foldl (fun t n => sigchld_step n.1 n.2 t) s := by
  induction ns generalizing s with
  | nil => rfl
  | cons n ns ih =>
    obtain ⟨pid, status⟩ := n
    have hp : pid > 0 := hpos (pid, status) (List.mem_cons_self _ _)
    simp only [handle_sigchld, hp, if_true, List.foldl_cons]
    exact ih _ (fun n hn => hpos n (List.mem_cons_of_mem _ hn))

/-- The effect of one reaped notification, two cases. -/
theorem sigchld_step_cases (pid status : Int) (t : Shell) :
    if pid ≠ t.foreground_pid ∧ (WIFEXITED status || WIFSIGNALED status) = true
        ∧ pid ∈ t.jobs.map Job.pid then
      ∃ (k : Nat) (j : Job), t.jobs[k]? = some j ∧ j.pid = pid ∧
        remove_entry t.jobs pid = t.jobs.eraseIdx k ∧
        sigchld_step pid status t =
          { t with
            jobs := t.jobs.eraseIdx k,
            trace := t.trace ++
              [Event.stdout ("\n[".toList ++ fmt_d ((k : Int) + 1) ++ "]+  Done\t\t".toList
                  ++ j.command ++ "\n".toList),
               Event.stdout (prompt t)] }
    else sigchld_step pid status t = t := by
  split
  · rename_i h
    obtain ⟨h1, h2, h3⟩ := h
    rcases find_job_by_pid_cases t.jobs pid with ⟨_, hno⟩ | ⟨k, j, hk, hj, hf, hr⟩
    · obtain ⟨j, hj, hjp⟩ := List.mem_map.mp h3
      exact absurd hjp (hno j hj)
    · refine ⟨k, j, hk, hj, hr, ?_⟩
      simp only [sigchld_step, h1, if_false, hf, ne_eq, nat_cast_ne_neg_one,
        not_false_eq_true, if_true, h2, job_at_of_getElem t.jobs k j hk]
      simp [remove_job, print, emit, done_notice, hr, prompt]
  · rename_i h
    unfold sigchld_step
    by_cases h1 : pid = t.foreground_pid
    · simp [h1]
    · by_cases h2 : (WIFEXITED status || WIFSIGNALED status) = true
      · have h3 : pid ∉ t.jobs.map Job.pid := fun hm => h ⟨h1, h2, hm⟩
        rcases find_job_by_pid_cases t.jobs pid with ⟨hf, _⟩ | ⟨k, j, hk, hj, _, _⟩
        · simp [h1, hf]
        · exact absurd (hj ▸ List.mem_map_of_mem _ (List.getElem?_mem hk)) h3
      · simp [h1, h2]

theorem reaped_cons (pid status : Int) (ns : List (Int × Int)) (fg : Int) (x : Job) :
    reaped ((pid, status) :: ns) fg x =
      ((x.pid != fg && (pid == x.pid && (WIFEXITED status || WIFSIGNALED status)))
        || reaped ns fg x) := by
  simp only [reaped, List.any_cons]
  cases (x.pid != fg) <;> rfl

theorem handle_sigchld_jobs (ns : List (Int × Int)) (s : Shell)
    (hnd : (s.jobs.map Job.pid).Nodup) (hpos : ∀ n ∈ ns, 0 < n.1) :
    (handle_sigchld ns s).jobs = s.jobs.filter (fun j => !reaped ns s.foreground_pid j) := by
  induction ns generalizing s with
  | nil => simp [handle_sigchld, reaped]
  | cons n ns ih =>
    obtain ⟨pid, status⟩ := n
    have hp : pid > 0 := hpos (pid, status) (List.mem_cons_self _ _)
    have hpos2 : ∀ n ∈ ns, 0 < n.1 := fun n hn => hpos n (List.mem_cons_of_mem _ hn)
    simp only [handle_sigchld, hp, if_true]
    rw [ih _ (sigchld_step_nodup pid status s hnd) hpos2, sigchld_step_fg]
    have hc := sigchld_step_cases pid status s
    split at hc
    · rename_i h
      obtain ⟨h1, h2, _⟩ := h
      obtain ⟨k, j, _, _, hr, hs⟩ := hc
      rw [hs]
      simp only
      rw [← hr, remove_entry_eq_filter s.jobs pid hnd, List.filter_filter]
      apply List.filter_congr
      intro x _
      rw [reaped_cons]
      by_cases hx : x.pid = pid
      · have e1 : (x.pid != pid) = false := by simp [hx]
        have e2 : (x.pid != s.foreground_pid) = true := by
          simp only [bne_iff_ne, ne_eq]
          exact hx ▸ h1
        have e3 : (pid == x.pid) = true := by simp [hx]
        rw [e1, e2, e3, h2]
        simp
      · have e1 : (x.pid != pid) = true := by simp [hx]
        have e3 : (pid == x.pid) = false := by
          simp only [beq_eq_false_iff_ne, ne_eq]
          exact fun h => hx h.symm
        rw [e1, e3]
        simp
    · rename_i h
      rw [hc]
      apply List.filter_congr
      intro x hxm
      rw [reaped_cons]
      have e : (x.pid != s.foreground_pid
          && (pid == x.pid && (WIFEXITED status || WIFSIGNALED status))) = false := by
        rw [Bool.eq_false_iff]
        intro ht
        simp only [Bool.and_eq_true, bne_iff_ne, ne_eq, beq_iff_eq] at ht
        obtain ⟨ha, hb, hc2⟩ := ht
        apply h
        refine ⟨hb ▸ ha, ?_, hb ▸ List.mem_map_of_mem _ hxm⟩
        simpa using hc2
      rw [e]
      simp

/-- C8 as stated fails: on a table with two entries of pid 77 a single terminal
notification for pid 77 removes only the first of them; the second stays although its pid
was reported with a terminal status and is not the foreground pid. -/
theorem C8_duplicate_pid_not_reaped :
    (handle_sigchld [(77, 0)] ⟨[⟨77, "a".toList, 0⟩, ⟨77, "b".toList, 0⟩], 0, -1, [], []⟩).jobs
      = [⟨77, "b".toList, 0⟩] ∧
    reaped [(77, 0)] (-1) ⟨77, "b".toList, 0⟩ = true := by
  decide

/-- C8 (amended): for a job table with pairwise distinct pids and every drained sequence
of child notifications (pid, status) with pid > 0, handle_sigchld processes the
notifications in order; the table it leaves is the old table, in the old order, without
exactly the jobs whose pid was reported with a terminal status (exited or killed) and
differs from foreground_pid. On every table, one notification either changes nothing at
all (its pid is foreground_pid, or is in no entry, or its status is not terminal, e.g.
stopped) or removes one entry k that has its pid and prints one completion notice
with the index k + 1 that the entry has at that moment and its command text, followed by
the prompt. A "stopped" status is never terminal. -/
theorem C8_handle_sigchld_reaps (ns : List (Int × Int)) (s : Shell)
    (hnd : (s.jobs.map Job.pid).Nodup) (hpos : ∀ n ∈ ns, 0 < n.1) :
    handle_sigchld ns s = ns.foldl (fun t n => sigchld_step n.1 n.2 t) s ∧
    (handle_sigchld ns s).jobs = s.jobs.filter (fun j => !reaped ns s.foreground_pid j) ∧
    (handle_sigchld ns s).jobs.Sublist s.jobs ∧
    (∀ (pid status : Int) (t : Shell),
      if pid ≠ t.foreground_pid ∧ (WIFEXITED status || WIFSIGNALED status) = true
          ∧ pid ∈ t.jobs.map Job.pid then
        ∃ (k : Nat) (j : Job), t.jobs[k]? = some j ∧ j.pid = pid ∧
          sigchld_step pid status t =
            { t with
              jobs := t.jobs.eraseIdx k,
              trace := t.trace ++
                [Event.stdout ("\n[".toList ++ fmt_d ((k : Int) + 1) ++ "]+  Done\t\t".toList
                    ++ j.command ++ "\n".toList),
                 Event.stdout (prompt t)] }
      else sigchld_step pid status t = t) ∧
    (∀ status : Int, WIFSTOPPED status = true →
      (WIFEXITED status || WIFSIGNALED status) = false) := by
  refine ⟨handle_sigchld_eq_foldl ns s hpos, handle_sigchld_jobs ns s hnd hpos, ?_, ?_, ?_⟩
  · rw [handle_sigchld_jobs ns s hnd hpos]
    exact List.filter_sublist _
  · intro pid status t
    have hc := sigchld_step_cases pid status t
    split
    · rename_i h
      rw [if_pos h] at hc
      obtain ⟨k, j, hk, hj, _, hs⟩ := hc
      exact ⟨k, j, hk, hj, hs⟩
    · rename_i h
      rw [if_neg h] at hc
      exact hc
  · intro status hst
    unfold WIFSTOPPED at hst
    unfold WIFEXITED WIFSIGNALED
    simp only [beq_iff_eq] at hst
    simp only [Bool.or_eq_false_iff, beq_eq_false_iff_ne, ne_eq, Bool.and_eq_false_iff,
      decide_eq_false_iff_not, not_le]
    omega

/-- Witness of C8 (amended): of three jobs the exited 11 and the killed 10 are removed, the stopped
12 stays; the notifications for the foreground pid and for an unknown pid change nothing. -/
theorem C8_handle_sigchld_witness :
    (handle_sigchld reap_notes reap_table).jobs
        = reap_table.jobs.filter (fun j => !reaped reap_notes reap_table.foreground_pid j) ∧
    (handle_sigchld reap_notes reap_table).jobs = [⟨12, "vi".toList, 1⟩] ∧
    (handle_sigchld reap_notes reap_table).trace
        = [Event.stdout "\n[2]+  Done\t\tsleep 5\n".toList, Event.stdout "msh> ".toList,
           Event.stdout "\n[1]+  Done\t\tmake\n".toList, Event.stdout "msh> ".toList] :=
  ⟨(C8_handle_sigchld_reaps reap_notes reap_table (by decide) (by decide)).2.1,
    by decide, by decide⟩

/-! ## Facts about the command line buffer -/

theorem takeWhile_set_nul (l : List Char) (e : Nat) :
    (l.set e NUL).takeWhile (fun c => c != NUL) <+: l.takeWhile (fun c => c != NUL) := by
  induction l generalizing e with
  | nil => simp
  | cons a l ih =>
    cases e with
    | zero => simp [List.takeWhile]
    | succ e =>
      simp only [List.set_cons_succ, List.takeWhile_cons]
      split
      · exact (List.prefix_cons_inj a).mpr (ih e)
      · exact List.prefix_refl _

theorem cstr_at_zero (buf : List Char) : cstr_at buf 0 = buf.takeWhile (fun c => c != NUL) := rfl

theorem strtok_buf (buf : List Char) (start : Nat) (delim : List Char) :
    (strtok buf start delim).2.1 = buf ∨ ∃ e, (strtok buf start delim).2.1 = buf.set e NUL := by
  unfold strtok
  dsimp only
  split
  · exact Or.inl rfl
  · split
    · exact Or.inl rfl
    · exact Or.inr ⟨_, rfl⟩

theorem strtok_cstr (buf : List Char) (start : Nat) (delim : List Char) :
    cstr_at (strtok buf start delim).2.1 0 <+: cstr_at buf 0 := by
  rcases strtok_buf buf start delim with h | ⟨e, h⟩
  · simp only [h]
    exact List.prefix_refl _
  · simp only [h]
    exact takeWhile_set_nul buf e

theorem split_loop_cstr (room : Nat) (tok : Option Nat) (buf : List Char) (save : Nat)
    (commands : List Nat) :
    cstr_at (split_loop room tok buf save commands).2 0 <+: cstr_at buf 0 := by
  induction room generalizing tok buf save commands with
  | zero => unfold split_loop; exact List.prefix_refl _
  | succ room ih =>
    cases tok with
    | none => unfold split_loop; exact List.prefix_refl _
    | some t =>
      unfold split_loop
      exact (ih _ _ _ _).trans (strtok_cstr buf save _)

theorem split_pipes_cstr (buf : List Char) : cstr_at (split_pipes buf).2 0 <+: cstr_at buf 0 := by
  unfold split_pipes
  exact (split_loop_cstr _ _ _ _ _).trans (strtok_cstr buf 0 _)

theorem args_loop_cstr (fuel : Nat) (tok : Option Nat) (buf : List Char) (save : Nat)
    (acc : List Nat) :
    cstr_at (args_loop fuel tok buf save acc).2 0 <+: cstr_at buf 0 := by
  induction fuel generalizing tok buf save acc with
  | zero => unfold args_loop; exact List.prefix_refl _
  | succ fuel ih =>
    cases tok with
    | none => unfold args_loop; exact List.prefix_refl _
    | some t =>
      unfold args_loop
      exact (ih _ _ _ _).trans (strtok_cstr buf save _)

theorem tokenize_cstr (buf : List Char) (cmd : Nat) :
    cstr_at (tokenize buf cmd).2 0 <+: cstr_at buf 0 := by
  unfold tokenize
  exact (args_loop_cstr _ _ _ _ _).trans (strtok_cstr buf cmd _)

theorem foldl_tokenize_cstr (cmds : List Nat) (buf : List Char) :
    cstr_at (cmds.foldl (fun b c => (tokenize b c).2) buf) 0 <+: cstr_at buf 0 := by
  induction cmds generalizing buf with
  | nil => exact List.prefix_refl _
  | cons c cmds ih =>
    simp only [List.foldl_cons]
    exact (ih _).trans (tokenize_cstr buf c)

/-! ## Facts about `launch` -/

theorem open_pipes_jobs (os : OS) (n i : Nat) (s : Shell) :
    (open_pipes os n i s).2.jobs = s.jobs ∧
    (open_pipes os n i s).2.last_exit_status = s.last_exit_status := by
  induction n generalizing i s with
  | zero => exact ⟨rfl, rfl⟩
  | succ n ih =>
    unfold open_pipes
    split
    · have := ih (i + 1) (emit s (.pipe i))
      simpa using this
    · exact ⟨rfl, rfl⟩

theorem exec_cd_jobs (os : OS) (args : List (List Char)) (s : Shell) :
    (exec_cd os args s).jobs = s.jobs := by
  unfold exec_cd
  split
  · rfl
  · dsimp only
    split <;> rfl

theorem child_jobs (os : OS) (n_cmds i : Nat) (args : List (List Char)) (s : Shell) :
    (child os n_cmds i args s).jobs = s.jobs := by
  unfold child
  dsimp only
  have h2 : ∀ t : Shell, (exec_pwd os t).jobs = t.jobs := by
    intro t
    unfold exec_pwd
    split <;> rfl
  split_ifs <;> simp [close_all, exec_jobs, h2]

theorem exec_bg_length (args : List (List Char)) (s : Shell) :
    (exec_bg args s).jobs.length = s.jobs.length := by
  have := congrArg List.length (exec_bg_pids args s)
  simpa using this

theorem exec_fg_length (os : OS) (args : List (List Char)) (s : Shell) :
    (exec_fg os args s).jobs.length ≤ s.jobs.length := by
  by_cases hl : s.jobs.length = 0
  · simp [exec_fg, hl]
  · have hne0 : s.jobs ≠ [] := fun h => hl (by simp [h])
    rcases select_job_cases args s.jobs hne0 with h1 | ⟨k, j, hsel, hk⟩
    · simp [exec_fg, hl, h1]
    · have hlt : k < s.jobs.length := by
        rcases Nat.lt_or_ge k s.jobs.length with h | h
        · exact h
        · rw [List.getElem?_eq_none h] at hk; simp at hk
      rcases find_job_by_pid_cases s.jobs j.pid with ⟨_, hno⟩ | ⟨k2, j2, hk2, _, _, hr⟩
      · exact absurd rfl (hno j (List.getElem?_mem hk))
      · have hlt2 : k2 < s.jobs.length := by
          rcases Nat.lt_or_ge k2 s.jobs.length with h | h
          · exact h
          · rw [List.getElem?_eq_none h] at hk2; simp at hk2
        have he : (s.jobs.eraseIdx k2).length = s.jobs.length - 1 := by
          rw [List.length_eraseIdx, if_pos hlt2]
        rw [exec_fg_selected os args s k j hsel hk]
        split
        · rw [add_job_jobs]
          simp only [hr]
          split
          · simp only [List.length_append, List.length_singleton, he]; omega
          · rw [he]; omega
        · simp only [hr, he]; omega

theorem spawn_loop_finished (os : OS) (n_cmds : Nat) (is_bg : Bool) (cmds : List Nat)
    (i : Nat) (buf : List Char) (pids : Int → Int) (k : Nat) (s s2 : Shell)
    (h : spawn_loop os n_cmds is_bg cmds i buf pids k s = .finished s2) :
    s2.jobs.length ≤ s.jobs.length := by
  induction cmds generalizing i buf pids k s with
  | nil => simp [spawn_loop] at h
  | cons c cmds ih =>
    unfold spawn_loop at h
    dsimp only at h
    split at h
    · exact ih _ _ _ _ _ h
    · split_ifs at h
      · cases h; simp
      · cases h; simp [exec_cd_jobs]
      · cases h; exact exec_fg_length _ _ _
      · cases h; simp [exec_bg_length]
      · cases h; simp [child_jobs]
      · cases h; simp
      · have := ih _ _ _ _ _ h
        simpa using this
      · have := ih _ _ _ _ _ h
        simpa using this

theorem spawn_loop_spawned (os : OS) (n_cmds : Nat) (is_bg : Bool) (cmds : List Nat)
    (i : Nat) (buf : List Char) (pids : Int → Int) (k : Nat) (s : Shell)
    (buf2 : List Char) (pids2 : Int → Int) (k2 : Nat) (s2 : Shell)
    (h : spawn_loop os n_cmds is_bg cmds i buf pids k s = .spawned buf2 pids2 k2 s2) :
    s2.jobs = s.jobs ∧ s2.last_exit_status = s.last_exit_status ∧
    buf2 = cmds.foldl (fun b c => (tokenize b c).2) buf := by
  induction cmds generalizing i buf pids k s with
  | nil =>
    simp only [spawn_loop, Spawn.spawned.injEq] at h
    obtain ⟨rfl, _, _, rfl⟩ := h
    exact ⟨rfl, rfl, rfl⟩
  | cons c cmds ih =>
    unfold spawn_loop at h
    dsimp only at h
    split at h
    · exact ih _ _ _ _ _ h
    · split_ifs at h
      · have := ih _ _ _ _ _ h
        simpa using this
      · have := ih _ _ _ _ _ h
        simpa using this

theorem launch_returned (os : OS) (line : List Char) (s s1 : Shell)
    (h : launch os line s = .returned s1) : s1.jobs.length ≤ s.jobs.length := by
  unfold launch at h
  dsimp only at h
  split at h
  · cases h; simp
  · split at h
    · rename_i s0 hp
      cases h
      have := (open_pipes_jobs os ((split_pipes (if decide (line.getLast? = some '&') = true
        then line.set (line.length - 1) NUL else line)).1.length - 1) 0 s).1
      rw [hp] at this
      simp only at this
      rw [this]
    · rename_i s0 hp
      have hj := (open_pipes_jobs os ((split_pipes (if decide (line.getLast? = some '&') = true
        then line.set (line.length - 1) NUL else line)).1.length - 1) 0 s).1
      rw [hp] at hj
      split at h
      · rename_i s2 hs
        cases h
        have := spawn_loop_finished _ _ _ _ _ _ _ _ _ _ hs
        simp only at hj
        rw [hj] at this
        exact this
      · cases h

/-- The buffer that `launch` splits: the line, with a trailing `&` overwritten by NUL. -/
theorem launch_launched (os : OS) (line : List Char) (s : Shell) (n_cmds : Nat) (is_bg : Bool)
    (line1 : List Char) (pids : Int → Int) (s1 : Shell)
    (h : launch os line s = .launched n_cmds is_bg line1 pids s1) :
    s1.jobs = s.jobs ∧ s1.last_exit_status = s.last_exit_status ∧
    is_bg = decide (line.getLast? = some '&') ∧
    line1 = cstr_at ((split_pipes (if is_bg = true then line.set (line.length - 1) NUL
        else line)).1.foldl (fun b c => (tokenize b c).2)
      (split_pipes (if is_bg = true then line.set (line.length - 1) NUL else line)).2) 0 := by
  unfold launch at h
  dsimp only at h
  split at h
  · cases h
  · split at h
    · cases h
    · rename_i s0 hp
      have hj := open_pipes_jobs os ((split_pipes (if decide (line.getLast? = some '&') = true
        then line.set (line.length - 1) NUL else line)).1.length - 1) 0 s
      rw [hp] at hj
      split at h
      · cases h
      · rename_i buf2 pids2 k2 s2 hs
        simp only [Launch.launched.injEq] at h
        obtain ⟨_, hb, hl, _, hs1⟩ := h
        obtain ⟨h1, h2, h3⟩ := spawn_loop_spawned _ _ _ _ _ _ _ _ _ _ _ _ _ hs
        subst hb hl hs1
        refine ⟨?_, ?_, rfl, ?_⟩
        · simp only [close_all, h1]; exact hj.1
        · simp only [close_all, h2]; exact hj.2
        · rw [h3]

theorem launch_line_pre (os : OS) (line : List Char) (s : Shell) (n_cmds : Nat) (is_bg : Bool)
    (line1 : List Char) (pids : Int → Int) (s1 : Shell)
    (h : launch os line s = .launched n_cmds is_bg line1 pids s1) :
    line1 <+: cstr_at (if is_bg = true then line.set (line.length - 1) NUL else line) 0 := by
  rw [(launch_launched os line s n_cmds is_bg line1 pids s1 h).2.2.2]
  exact (foldl_tokenize_cstr _ _).trans (split_pipes_cstr _)

theorem set_last_nul (l : List Char) (h : l ≠ []) :
    l.set (l.length - 1) NUL = l.dropLast ++ [NUL] := by
  induction l with
  | nil => exact absurd rfl h
  | cons a l ih =>
    cases l with
    | nil => rfl
    | cons b r =>
      have := ih (by simp)
      simp only [List.length_cons, Nat.add_sub_cancel, List.set_cons_succ, List.dropLast_cons₂,
        List.cons_append] at this ⊢
      rw [this]

theorem cstr_body_nul (body rest : List Char) :
    (body ++ NUL :: rest).takeWhile (fun c => c != NUL) <+: body := by
  induction body with
  | nil => simp [List.takeWhile]
  | cons a body ih =>
    simp only [List.cons_append, List.takeWhile_cons]
    split
    · exact (List.prefix_cons_inj a).mpr ih
    · exact List.nil_prefix

/-! ## A line without separators is left as it is by `strtok` -/

theorem strspn_clean (body rest delim : List Char)
    (h : ∀ c ∈ body, c ≠ NUL ∧ delim.contains c = false) :
    strspn (body ++ NUL :: rest) delim = 0 := by
  unfold strspn
  cases body with
  | nil => simp [List.takeWhile]
  | cons a body =>
    have := (h a (List.mem_cons_self _ _)).2
    simp only [List.cons_append, List.takeWhile_cons, this, Bool.and_false]
    rfl

theorem strcspn_clean (body rest delim : List Char)
    (h : ∀ c ∈ body, c ≠ NUL ∧ delim.contains c = false) :
    strcspn (body ++ NUL :: rest) delim = body.length := by
  unfold strcspn
  induction body with
  | nil => simp [List.takeWhile]
  | cons a body ih =>
    have ha := h a (List.mem_cons_self _ _)
    have := ih (fun c hc => h c (List.mem_cons_of_mem _ hc))
    simp only [List.cons_append, List.takeWhile_cons]
    have e : (a != NUL && !delim.contains a) = true := by
      rw [ha.2]
      simpa using ha.1
    rw [e]
    simp only [if_true, List.length_cons]
    rw [this]

theorem at_end_body (body : List Char) : at_end (body ++ [NUL]) body.length = true := by
  simp [at_end]

theorem at_end_zero (a : Char) (body : List Char) (h : a ≠ NUL) :
    at_end (a :: body ++ [NUL]) 0 = false := by
  simp [at_end, h]

theorem strtok_clean_end (body delim : List Char) :
    strtok (body ++ [NUL]) body.length delim = (none, body ++ [NUL], body.length) := by
  have hd : (body ++ [NUL]).drop body.length = [NUL] := by simp
  have hs : strspn [NUL] delim = 0 := by simp [strspn, List.takeWhile]
  simp [strtok, hd, hs, at_end_body]

theorem strtok_clean_first (a : Char) (body delim : List Char)
    (h : ∀ c ∈ a :: body, c ≠ NUL ∧ delim.contains c = false) :
    strtok (a :: body ++ [NUL]) 0 delim
      = (some 0, a :: body ++ [NUL], (a :: body).length) := by
  have h1 := strspn_clean (a :: body) [] delim h
  have h2 := strcspn_clean (a :: body) [] delim h
  have h3 := at_end_zero a body (h a (List.mem_cons_self _ _)).1
  have h4 := at_end_body (a :: body)
  simp only [List.cons_append] at h1 h2 h3 h4
  simp only [strtok, List.drop_zero, List.cons_append, h1, h2, Nat.zero_add, h3, h4, if_true,
    Bool.false_eq_true, if_false]

theorem split_pipes_clean (body : List Char)
    (h : ∀ c ∈ body, c ≠ NUL ∧ "|".toList.contains c = false) :
    (split_pipes (body ++ [NUL])).2 = body ++ [NUL] ∧
    ((split_pipes (body ++ [NUL])).1 = [] ∨ (split_pipes (body ++ [NUL])).1 = [0]) := by
  cases body with
  | nil => exact ⟨by decide, Or.inl (by decide)⟩
  | cons a body =>
    have h1 := strtok_clean_first a body _ h
    have h2 := strtok_clean_end (a :: body) "|".toList
    simp only [List.cons_append, List.length_cons] at h1 h2
    have e : split_pipes (a :: body ++ [NUL]) = ([0], a :: body ++ [NUL]) := by
      simp only [split_pipes, List.cons_append, h1, MAX_ARGS, split_loop, h2, List.nil_append]
    rw [e]
    exact ⟨rfl, Or.inr rfl⟩

theorem tokenize_clean (body : List Char)
    (h : ∀ c ∈ body, c ≠ NUL ∧ " \t\n".toList.contains c = false) :
    (tokenize (body ++ [NUL]) 0).2 = body ++ [NUL] := by
  cases body with
  | nil => decide
  | cons a body =>
    have h1 := strtok_clean_first a body _ h
    have h2 := strtok_clean_end (a :: body) " \t\n".toList
    simp only [List.cons_append, List.length_cons] at h1 h2
    simp only [tokenize, List.cons_append, h1, List.length_cons, args_loop, h2]

theorem cstr_body (body : List Char) (h : ∀ c ∈ body, c ≠ NUL) :
    cstr_at (body ++ [NUL]) 0 = body := by
  rw [cstr_at_zero]
  induction body with
  | nil => decide
  | cons a body ih =>
    have ha : (a != NUL) = true := by simpa using h a (List.mem_cons_self _ _)
    simp only [List.cons_append, List.takeWhile_cons, ha, if_true]
    rw [ih (fun c hc => h c (List.mem_cons_of_mem _ hc))]

/-! ## C1: the command text of a background job -/

theorem ne_nil_of_getLast? (l : List Char) (c : Char) (h : l.getLast? = some c) : l ≠ [] := by
  intro h0
  rw [h0] at h
  simp at h

/-- C1 as stated fails: for the input "sleep 5 &" the stored command text is "sleep",
because the trailing "&" is overwritten and strtok then cuts the line at the first
separator. -/
theorem C1_sleep_5_stored_text :
    (execute_pipeline os_ok "sleep 5 &".toList Shell.init).jobs
        = [⟨100, "sleep".toList, 0⟩] ∧
    "sleep".toList ≠ "sleep 5 &".toList := by
  decide

/-- C1 (amended): when execute_pipeline, run on a command line that ends in "&", appends
a job to the table, that job is Running and its stored command text is a leading part of
the command line without its final "&"; it is exactly the command line without the final
"&" when that text has no "|", blank, tab or newline in it and the line is at most
MAX_CMD_LEN long (e.g. "ls" for the input "ls&"). -/
theorem C1_background_command_text (os : OS) (line : List Char) (s : Shell) (j : Job)
    (hbg : line.getLast? = some '&')
    (hreg : (execute_pipeline os line s).jobs = s.jobs ++ [j]) :
    j.status = 0 ∧ j.command <+: line.dropLast ∧
    ((∀ c ∈ line.dropLast, c ≠ NUL ∧ c ≠ '|' ∧ c ≠ ' ' ∧ c ≠ '\t' ∧ c ≠ '\n') →
      line.length ≤ MAX_CMD_LEN → j.command = line.dropLast) := by
  have hne := ne_nil_of_getLast? line _ hbg
  unfold execute_pipeline at hreg
  split at hreg
  · rename_i s1 hl
    have := launch_returned os line s s1 hl
    rw [hreg] at this
    simp at this
  · rename_i n_cmds is_bg line1 pids s1 hl
    obtain ⟨hj, _, hb, hline⟩ := launch_launched os line s n_cmds is_bg line1 pids s1 hl
    have hpre := launch_line_pre os line s n_cmds is_bg line1 pids s1 hl
    have hbt : is_bg = true := by rw [hb]; simpa using hbg
    subst hbt
    simp only [Bool.true_eq_false, if_false, if_true] at hreg hpre hline
    rw [add_job_jobs, hj] at hreg
    split at hreg
    · have hjeq := List.append_cancel_left hreg
      simp only [List.cons.injEq, and_true] at hjeq
      subst hjeq
      rw [set_last_nul line hne] at hpre hline
      refine ⟨rfl, ?_, ?_⟩
      · exact (List.take_prefix _ _).trans (hpre.trans (cstr_body_nul _ _))
      · intro hclean hlen
        have hp : ∀ c ∈ line.dropLast, c ≠ NUL ∧ "|".toList.contains c = false := by
          intro c hc
          have := hclean c hc
          refine ⟨this.1, ?_⟩
          have e : "|".toList = ['|'] := rfl
          rw [e]
          simp [this.2.1]
        have hw : ∀ c ∈ line.dropLast, c ≠ NUL ∧ " \t\n".toList.contains c = false := by
          intro c hc
          have := hclean c hc
          refine ⟨this.1, ?_⟩
          have e : " \t\n".toList = [' ', '\t', '\n'] := rfl
          rw [e]
          simp [this.2.2.1, this.2.2.2.1, this.2.2.2.2]
        obtain ⟨hs2, hs1⟩ := split_pipes_clean line.dropLast hp
        have hbody := cstr_body line.dropLast (fun c hc => (hclean c hc).1)
        have hl1 : line1 = line.dropLast := by
          rw [hline, hs2]
          rcases hs1 with h0 | h0 <;> rw [h0]
          · exact hbody
          · simp only [List.foldl_cons, List.foldl_nil, tokenize_clean line.dropLast hw]
            exact hbody
        show List.take MAX_CMD_LEN line1 = line.dropLast
        rw [hl1]
        apply List.take_of_length_le
        rw [List.length_dropLast]
        omega
    · have := congrArg List.length hreg
      simp at this

/-- Witness of C1 (amended): the input "ls&" registers a job with the command text "ls". -/
theorem C1_background_command_text_witness :
    (execute_pipeline os_ok "ls&".toList Shell.init).jobs
        = Shell.init.jobs ++ [⟨100, "ls".toList, 0⟩] ∧
    (⟨100, "ls".toList, 0⟩ : Job).command = "ls&".toList.dropLast :=
  ⟨by decide,
    (C1_background_command_text os_ok "ls&".toList Shell.init ⟨100, "ls".toList, 0⟩
      (by decide) (by decide)).2.2 (by decide) (by decide)⟩

/-! ## C9: exit status of a foreground pipeline -/

theorem wait_loop_status (os : OS) (n_cmds : Nat) (pids : Int → Int) (line : List Char)
    (st : Int) (hw : os.waitpid (n_cmds - 1) (pids ((n_cmds - 1 : Nat) : Int)) = some st)
    (todo i : Nat) (status : Int) (s : Shell) (ht : 0 < todo) (hi : i + todo = n_cmds) :
    (WIFEXITED st = true →
      (wait_loop os n_cmds pids line todo i status s).last_exit_status = WEXITSTATUS st) ∧
    (WIFEXITED st = false →
      (wait_loop os n_cmds pids line todo i status s).last_exit_status
        = s.last_exit_status) := by
  induction todo generalizing i status s with
  | zero => omega
  | succ todo ih =>
    unfold wait_loop
    dsimp only
    by_cases hlast : i + 1 = n_cmds
    · have h0 : todo = 0 := by omega
      have hi2 : i = n_cmds - 1 := by omega
      subst h0
      rw [if_pos hlast]
      simp only [wait_loop]
      rw [hi2, hw]
      simp only [Option.getD_some]
      constructor
      · intro he
        have hs : WIFSTOPPED st = false := by
          unfold WIFEXITED at he
          unfold WIFSTOPPED
          simp only [beq_iff_eq, beq_eq_false_iff_ne, ne_eq] at he ⊢
          omega
        simp [hs, he]
      · intro he
        by_cases hs : WIFSTOPPED st = true
        · simp [hs]
        · simp [hs, he]
    · rw [if_neg hlast]
      have := ih (i + 1) ((os.waitpid i (pids i)).getD status) (emit s (.waitpid (pids i)))
        (by omega) (by omega)
      simpa using this

/-- C9 as stated fails. A last stage that is killed by a signal is not "stopped", yet
last_exit_status keeps its previous value (42 here, 7 there) instead of being set from
the outcome. And when the last blocking waitpid of "a | b" fails, the status of the first
stage (exit code 3) decides last_exit_status, so it does depend on an earlier stage. -/
theorem C9_killed_keeps_previous_status :
    WIFSTOPPED 9 = false ∧
    (execute_pipeline os_killed "sleep 9".toList ⟨[], 42, -1, [], []⟩).last_exit_status = 42 ∧
    (execute_pipeline os_killed "sleep 9".toList ⟨[], 7, -1, [], []⟩).last_exit_status = 7 ∧
    (execute_pipeline os_last_wait_fails "a | b".toList
      ⟨[], 42, -1, [], []⟩).last_exit_status = 3 := by
  decide

/-- C9 (amended): whenever execute_pipeline reaches its wait loop for a foreground line
with n_cmds >= 1 segments, foreground_pid is -1 afterwards; and if the last blocking
waitpid of the loop (the one on pids[n_cmds-1]) succeeds and reports the status st, then:
if st is a normal exit, last_exit_status is its exit code WEXITSTATUS st, whatever the
earlier stages reported and whatever last_exit_status was before; if st is neither a
normal exit nor a stop (the process was killed by a signal), last_exit_status keeps the
value it had before. -/
theorem C9_foreground_exit_status (os : OS) (line : List Char) (s : Shell) (n_cmds : Nat)
    (line1 : List Char) (pids : Int → Int) (s1 : Shell)
    (hl : launch os line s = .launched n_cmds false line1 pids s1)
    (hn : 0 < n_cmds) :
    (execute_pipeline os line s).foreground_pid = -1 ∧
    ∀ st : Int, os.waitpid (n_cmds - 1) (pids ((n_cmds - 1 : Nat) : Int)) = some st →
      (WIFEXITED st = true →
        (execute_pipeline os line s).last_exit_status = WEXITSTATUS st) ∧
      (WIFSTOPPED st = false → WIFEXITED st = false →
        (execute_pipeline os line s).last_exit_status = s.last_exit_status) := by
  have hles := (launch_launched os line s n_cmds false line1 pids s1 hl).2.1
  have he : execute_pipeline os line s = foreground_wait os n_cmds pids line1 s1 := by
    unfold execute_pipeline
    rw [hl]
    rfl
  rw [he]
  refine ⟨rfl, ?_⟩
  intro st hw
  have hwl := wait_loop_status os n_cmds pids line1 st hw n_cmds 0 os.status s1 hn (by omega)
  refine ⟨?_, ?_⟩
  · intro h
    exact hwl.1 h
  · intro _ h
    rw [← hles]
    exact hwl.2 h

/-- Witness of C9 (amended): "echo hi | tr h H" with both stages exiting with code 0 gives
last_exit_status 0. -/
theorem C9_foreground_exit_status_witness :
    (execute_pipeline os_ok "echo hi | tr h H".toList ⟨[], 5, -1, [], []⟩).foreground_pid = -1 ∧
    (execute_pipeline os_ok "echo hi | tr h H".toList ⟨[], 5, -1, [], []⟩).last_exit_status
      = WEXITSTATUS 0 :=
  ⟨(C9_foreground_exit_status os_ok "echo hi | tr h H".toList ⟨[], 5, -1, [], []⟩ 2 _ _ _
      rfl (by decide)).1,
   ((C9_foreground_exit_status os_ok "echo hi | tr h H".toList ⟨[], 5, -1, [], []⟩ 2 _ _ _
      rfl (by decide)).2 0 rfl).1 (by decide)⟩

/-- The scenario "false": the program exits with code 1 and last_exit_status becomes 1. -/
theorem foreground_false_status :
    (execute_pipeline os_exit1 "false".toList Shell.init).last_exit_status = 1 ∧
    (execute_pipeline os_exit1 "false".toList Shell.init).foreground_pid = -1 := by
  decide

/-! ## C3: a command line without any stage -/

theorem launch_blank_bg (os : OS) (s : Shell) :
    launch os " &".toList s = .launched 1 true " ".toList os.pids (close_all 0 s) := by
  rfl

theorem launch_blank_fg (os : OS) (s : Shell) :
    launch os " ".toList s = .launched 1 false " ".toList os.pids (close_all 0 s) := by
  rfl

/-- C3 fails on the code: the line " &" (a blank and "&") has no stage and no process is
spawned, yet execute_pipeline registers a job whose pid is the uninitialised pids[0] and
prints its registration notice; the foreground line " " makes it wait on the
uninitialised pids[0]. -/
theorem C3_blank_line_not_noop (os : OS) :
    (execute_pipeline os " &".toList Shell.init).jobs = [⟨os.pids 0, " ".toList, 0⟩] ∧
    (execute_pipeline os " &".toList Shell.init).trace
      = [Event.stdout ("[".toList ++ fmt_d 1 ++ "] ".toList ++ fmt_d (os.pids 0)
          ++ "\n".toList)] ∧
    (execute_pipeline os " ".toList Shell.init).trace.head? = some (Event.waitpid (os.pids 0)) := by
  refine ⟨?_, ?_, ?_⟩
  · simp only [execute_pipeline, launch_blank_bg]
    rfl
  · simp only [execute_pipeline, launch_blank_bg]
    rfl
  · simp only [execute_pipeline, launch_blank_fg, foreground_wait, wait_loop]
    simp only [if_true, Shell.init, emit, print, List.nil_append, close_all]
    split_ifs <;> simp [add_job, MAX_JOBS, emit, print]

end Msh
